import Mathlib

/-!
Verification development for the ClickBus repurchase-prediction scripts
(`predict_client_repurchase.py` and `predict_repurchase_route.py`).

The scripts build, for each group of purchase rows (grouped by customer in the
client variant, and by customer × route for the survival labels of the route
variant), right-censored survival labels and per-row temporal features, cap
high-cardinality categorical columns, and export ranked 30-day repurchase
probabilities.

The shallow embedding below models purchase timestamps as integer minutes
since an arbitrary epoch (pandas datetimes have sub-day resolution; the
scripts convert timedeltas to whole days with `.dt.days`, which floors),
monetary amounts and predicted probabilities as rationals, and nullable
(NaN-able) columns as `Option` values.  Each definition is translated from
the corresponding pandas expression in the scripts; group-level operations
(`groupby(...).shift`, `cumcount`, expanding means) are modelled on the list
of rows of a single group, which is exactly how pandas evaluates them.
-/

namespace ClickBus

/-! ## Timestamps and whole days -/

/-- Minutes in a day; timestamps are modelled as integer minutes. -/
def minutesPerDay : Int := 1440

/-- Whole-day count of a (minute-valued) timedelta, as pandas `.dt.days`
computes it: the floor of the exact number of days. -/
def wholeDays (d : Int) : Int := Int.fdiv d minutesPerDay

/-- Censoring sentinel used by `fillna(9999)` in both scripts
(`predict_client_repurchase.py` line 119, `predict_repurchase_route.py`
line 105). -/
def CENSOR : Int := 9999

/-! ## Survival labels for one group

`predict_client_repurchase.py` lines 115–119 and
`predict_repurchase_route.py` lines 102–105 compute, on the sorted table,

  `tempo_prox = (groupby(key)[ts].shift(-1) - ts).dt.days`, then
  `evento = (~tempo_prox.isna()).astype(int)`, then
  `tempo_prox = tempo_prox.fillna(9999)`.

Within one group (customer for the client variant; customer × origin ×
destination for the route variant) `shift(-1)` pairs each row with the next
row of the same group, so on the group's timestamp list the two columns are
the functions below. -/

/-- Column `tempo_prox` restricted to one group: whole-day gap to the next row of
the group, and the sentinel `CENSOR` for the last row (where `shift(-1)` is
NaT and `fillna(9999)` applies). -/
def tempoProx : List Int → List Int
  | [] => []
  | [_] => [CENSOR]
  | a :: b :: rest => wholeDays (b - a) :: tempoProx (b :: rest)

/-- Column `evento` restricted to one group: 1 where a next row of the group exists
(`tempo_prox` non-NaN before the fill), 0 on the group's last row. -/
def evento : List Int → List Int
  | [] => []
  | [_] => [0]
  | _ :: b :: rest => 1 :: evento (b :: rest)

theorem tempoProx_length (ts : List Int) : (tempoProx ts).length = ts.length := by
  induction ts with
  | nil => rfl
  | cons a rest ih =>
    cases rest with
    | nil => rfl
    | cons b r => simpa [tempoProx] using ih

theorem evento_length (ts : List Int) : (evento ts).length = ts.length := by
  induction ts with
  | nil => rfl
  | cons a rest ih =>
    cases rest with
    | nil => rfl
    | cons b r => simpa [evento] using ih

theorem tempoProx_getElem?_next (ts : List Int) (i : Nat) (cur next : Int)
    (hc : ts[i]? = some cur) (hn : ts[i + 1]? = some next) :
    (tempoProx ts)[i]? = some (wholeDays (next - cur)) := by
  induction ts generalizing i cur next with
  | nil => simp at hc
  | cons a rest ih =>
    cases rest with
    | nil =>
      cases i with
      | zero => simp at hn
      | succ j => simp at hc
    | cons b r =>
      cases i with
      | zero =>
        simp only [List.getElem?_cons_zero, Option.some.injEq] at hc
        simp only [List.getElem?_cons_succ, List.getElem?_cons_zero,
          Option.some.injEq] at hn
        subst hc; subst hn
        simp [tempoProx]
      | succ j =>
        simp only [List.getElem?_cons_succ] at hc hn
        simpa [tempoProx] using ih j cur next hc (by simpa using hn)

theorem evento_getElem?_next (ts : List Int) (i : Nat) (next : Int)
    (hn : ts[i + 1]? = some next) :
    (evento ts)[i]? = some 1 := by
  induction ts generalizing i next with
  | nil => simp at hn
  | cons a rest ih =>
    cases rest with
    | nil =>
      cases i with
      | zero => simp at hn
      | succ j => simp at hn
    | cons b r =>
      cases i with
      | zero => simp [evento]
      | succ j =>
        simp only [List.getElem?_cons_succ] at hn
        simpa [evento] using ih j next (by simpa using hn)

theorem tempoProx_getElem?_last (ts : List Int) (i : Nat)
    (hi : i < ts.length) (hn : ts[i + 1]? = none) :
    (tempoProx ts)[i]? = some CENSOR := by
  induction ts generalizing i with
  | nil => simp at hi
  | cons a rest ih =>
    cases rest with
    | nil =>
      cases i with
      | zero => simp [tempoProx]
      | succ j => simp at hi
    | cons b r =>
      cases i with
      | zero => simp at hn
      | succ j =>
        simp only [List.getElem?_cons_succ] at hn
        have hi2 : j < (b :: r).length := by
          simp only [List.length_cons] at hi ⊢; omega
        simpa [tempoProx] using ih j hi2 (by simpa using hn)

theorem evento_getElem?_last (ts : List Int) (i : Nat)
    (hi : i < ts.length) (hn : ts[i + 1]? = none) :
    (evento ts)[i]? = some 0 := by
  induction ts generalizing i with
  | nil => simp at hi
  | cons a rest ih =>
    cases rest with
    | nil =>
      cases i with
      | zero => simp [evento]
      | succ j => simp at hi
    | cons b r =>
      cases i with
      | zero => simp at hn
      | succ j =>
        simp only [List.getElem?_cons_succ] at hn
        have hi2 : j < (b :: r).length := by
          simp only [List.length_cons] at hi ⊢; omega
        simpa [evento] using ih j hi2 (by simpa using hn)

theorem evento_eq_replicate (ts : List Int) (h : ts ≠ []) :
    evento ts = List.replicate (ts.length - 1) 1 ++ [0] := by
  induction ts with
  | nil => exact absurd rfl h
  | cons a rest ih =>
    cases rest with
    | nil => simp [evento]
    | cons b r =>
      have ih2 := ih (by simp)
      simp only [evento, ih2, List.length_cons]
      simp [Nat.add_sub_cancel, List.replicate_succ]

/-! ## Customer sampling (both scripts, pass 1)

`predict_client_repurchase.py` lines 58–62 and
`predict_repurchase_route.py` lines 48–50:

  `sample_n = max(500, int(SAMPLE_FRAC * n_clients))`
  `sample_clients = unique_emails.sample(n=sample_n, random_state=RANDOM_STATE)`

`SAMPLE_FRAC` is the integer constant 1 in both scripts, so
`int(SAMPLE_FRAC * n_clients) = n_clients`. -/

/-- Sampling fraction constant (`SAMPLE_FRAC = 1` in both scripts). -/
def SAMPLE_FRAC : Nat := 1

/-- Requested sample size: `max(500, int(SAMPLE_FRAC * n_clients))`. -/
def sample_n (nClients : Nat) : Nat := max 500 (SAMPLE_FRAC * nClients)

/-- Outcome of `pandas.Series.sample(n=n)` on a series of `pop` elements with
the default `replace=False`: pandas draws `n` distinct elements and raises
`ValueError` ("Cannot take a larger sample than population when
'replace=False'") whenever `n` exceeds the population size.  `none` models
the raised error, `some n` a successful draw of `n` distinct elements. -/
def sampleWithoutReplacement (n pop : Nat) : Option Nat :=
  if n ≤ pop then some n else none

/-! ## Per-customer temporal features (route variant, lines 108–116)

In `predict_repurchase_route.py` the table is sorted by
`["EMAIL_CLIENTE", "ORIGEM", "DESTINO", "DATA_HORA_COMPRA"]` (line 99) and
then

  `prev_time = df.groupby("EMAIL_CLIENTE")["DATA_HORA_COMPRA"].shift(1)`
  `df["dias_desde_ultima"] = (df["DATA_HORA_COMPRA"] - prev_time).dt.days`
  `df["compras_ate_agora"] = df.groupby("EMAIL_CLIENTE").cumcount()`

i.e. the features are grouped by customer alone, over rows ordered by
(origin, destination, timestamp) within the customer.  The functions below
act on the list of one customer's rows in that order. -/

/-- One purchase row of a single customer in the route variant, in the
order produced by the sort on (ORIGEM, DESTINO, DATA_HORA_COMPRA).
Timestamps are integer minutes. -/
structure TripRow where
  origem : String
  destino : String
  ts : Int
deriving DecidableEq

/-- Helper for `diasDesdeUltima`: rows after the first, each differenced
against the previous row of the same customer. -/
def diasAux (prev : Int) : List Int → List (Option Int)
  | [] => []
  | b :: rest => some (wholeDays (b - prev)) :: diasAux b rest

/-- Column `dias_desde_ultima` on one customer's timestamp list (in table order):
`groupby("EMAIL_CLIENTE").shift(1)` pairs each row with the previous row of
the same customer, NaT (here `none`) on the customer's first row. -/
def diasDesdeUltima : List Int → List (Option Int)
  | [] => []
  | a :: rest => none :: diasAux a rest

/-- Column `compras_ate_agora` on one customer's row list:
`groupby("EMAIL_CLIENTE").cumcount()` numbers the customer's rows 0,1,2,…
in table order. -/
def comprasAteAgora (block : List TripRow) : List Nat :=
  List.range block.length

/-- Timestamp of the last row in `seen` sharing `r`'s (origem, destino). -/
def lastRouteTs (r : TripRow) : List TripRow → Option Int
  | [] => none
  | x :: xs =>
    match lastRouteTs r xs with
    | some t => some t
    | none => if x.origem = r.origem ∧ x.destino = r.destino then some x.ts else none

/-- Helper for `diasDesdeUltimaPerRoute`: walks the block keeping the list
of already-seen rows. -/
def diasRouteAux : List TripRow → List TripRow → List (Option Int)
  | _, [] => []
  | seen, r :: rest =>
    (match lastRouteTs r seen with
     | none => none
     | some t => some (wholeDays (r.ts - t))) :: diasRouteAux (seen ++ [r]) rest

/-- Modelled from the spec's words (for comparison with `diasDesdeUltima`):
`days_since_last` grouped by the Route Timeline key (customer, origin,
destination) — the difference from the previous row of the same
(origin, destination) within the customer, missing for the first row of
each route group. -/
def diasDesdeUltimaPerRoute (block : List TripRow) : List (Option Int) :=
  diasRouteAux [] block

/-- Modelled from the spec's words (for comparison with `comprasAteAgora`):
`purchases_so_far` grouped by the Route Timeline key — the count of prior
rows of the same (origin, destination) within the customer. -/
def comprasPerRoute (block : List TripRow) : List Nat :=
  (List.range block.length).map (fun i =>
    ((block.take i).filter (fun x =>
      x.origem = (block.getD i ⟨"", "", 0⟩).origem ∧
      x.destino = (block.getD i ⟨"", "", 0⟩).destino)).length)

/-! ## Historical mean value (client lines 129–131, route lines 113–116)

Client variant:
  `df.groupby("EMAIL_CLIENTE")["VALOR_TOTAL_PASSAGEM"].apply(lambda s: s.shift(1).expanding().mean())`
On one group's value list `vs`, the entry at position `i` is the mean of the
non-NaN values among `vs[0..i-1]` (the expanding mean skips NaN), and NaN
when there is no non-NaN prior value — in particular on the first row.

Route variant:
  `val_shift = groupby(email)[valor].shift(1)`
  `cum_sum = val_shift.groupby(email).cumsum()`   (NaN stays NaN at NaN positions)
  `cum_cnt = groupby(email).cumcount()`           (0 replaced by NaN)
  `valor_medio_historico = cum_sum / cum_cnt`
so the entry at `i > 0` is (sum of non-NaN values among `vs[0..i-1]`) / i,
NaN when `vs[i-1]` is NaN (cumsum propagates it), and NaN at `i = 0`. -/

/-- Entry `i` of the client-variant `valor_medio_historico` on one group's
(optional) value list. -/
def vmhEntry (vs : List (Option ℚ)) (i : Nat) : Option ℚ :=
  let prior := (vs.take i).reduceOption
  if prior.length = 0 then none else some (prior.sum / prior.length)

/-- Client-variant `valor_medio_historico` on one group's value list. -/
def valorMedioHistorico (vs : List (Option ℚ)) : List (Option ℚ) :=
  (List.range vs.length).map (vmhEntry vs)

/-- Entry `i` of the route-variant `valor_medio_historico` on one
customer's value list. -/
def vmhRouteEntry (vs : List (Option ℚ)) (i : Nat) : Option ℚ :=
  if i = 0 then none
  else
    match vs[i - 1]? with
    | none => none
    | some none => none
    | some (some _) => some ((vs.take i).reduceOption.sum / i)

/-- Route-variant `valor_medio_historico` on one customer's value list. -/
def valorMedioHistoricoRoute (vs : List (Option ℚ)) : List (Option ℚ) :=
  (List.range vs.length).map (vmhRouteEntry vs)

/-- Whether a row survives the `dropna` that builds the final modeling table
(`df_model = df[...].dropna()` in the client script, line 165;
`dropna(subset=feature_cols + ["tempo_prox", "evento"])` in the route
script, line 161).  Of the selected columns only these four can be NaN:
`VALOR_TOTAL_PASSAGEM` and `QUANTIDADE_PASSAGENS` (coerced numerics),
`dias_desde_ultima` (NaN on a customer's first row) and
`valor_medio_historico` (NaN on a customer's first row).  The calendar
columns come from a non-null timestamp, `compras_ate_agora` is a cumcount,
`tempo_prox`/`evento` are filled, and the city-frequency, city-ticket-mean
and dummy columns are fillna'd or 0/1 valued. -/
def keptInModel (valor quant : Option ℚ) (dias : Option Int) (vmh : Option ℚ) : Bool :=
  valor.isSome && quant.isSome && dias.isSome && vmh.isSome

/-! ## Category compaction (route variant, lines 139–144)

  `def cap_rare(series, top_n): top = series.value_counts().index[:top_n];`
  `    return series.where(series.isin(top), other="OTHER")`

`value_counts()` lists the distinct values sorted by decreasing count
(ties in a deterministic order); `index[:top_n]` keeps the first `top_n`. -/

/-- Distinct values of a list in order of first occurrence. -/
def uniqueFirst {α : Type} [DecidableEq α] : List α → List α
  | [] => []
  | a :: rest => a :: (uniqueFirst rest).filter (fun x => x ≠ a)

/-- Ordering of category labels by decreasing count in `s`, the order
`value_counts()` sorts by. -/
def countDescOn (s : List String) (a b : String) : Prop := s.count b ≤ s.count a

instance (s : List String) : DecidableRel (countDescOn s) := fun a b =>
  inferInstanceAs (Decidable (s.count b ≤ s.count a))

instance (s : List String) : IsTotal String (countDescOn s) :=
  ⟨fun a b => Nat.le_total (s.count b) (s.count a)⟩

instance (s : List String) : IsTrans String (countDescOn s) :=
  ⟨fun _ _ _ h1 h2 => Nat.le_trans h2 h1⟩

/-- The index of `series.value_counts()`: distinct values sorted by
decreasing count (stable, so ties keep first-occurrence order). -/
def valueCountsIndex (s : List String) : List String :=
  List.insertionSort (countDescOn s) (uniqueFirst s)

/-- Function `cap_rare`: keep values among the `top_n` most frequent, replace every
other value by the sentinel "OTHER". -/
def cap_rare (s : List String) (top_n : Nat) : List String :=
  let top := (valueCountsIndex s).take top_n
  s.map (fun v => if v ∈ top then v else "OTHER")

/-! ## Exporters (client lines 190–194, route lines 186–191) -/

/-- One row of the route-variant `df_model` after prediction: customer,
route, and 30-day event probability. -/
structure PRow where
  email : String
  origem : String
  destino : String
  prob : ℚ
deriving DecidableEq

/-- Descending-probability order used by
`top_routes.sort_values("prob_30dias", ascending=False)`. -/
def probDesc (a b : PRow) : Prop := b.prob ≤ a.prob

instance : DecidableRel probDesc := fun a b =>
  inferInstanceAs (Decidable (b.prob ≤ a.prob))

instance : IsTotal PRow probDesc := ⟨fun a b => le_total b.prob a.prob⟩

instance : IsTrans PRow probDesc := ⟨fun _ _ _ h1 h2 => le_trans h2 h1⟩

/-- The rows of one customer's group, as `groupby("EMAIL_CLIENTE")` forms it. -/
def groupRows (rows : List PRow) (k : String) : List PRow :=
  rows.filter (fun r => r.email = k)

/-- The row `idxmax` selects in one group: the first row attaining the
maximum `prob_30dias` of the group. -/
def argmaxProb : List PRow → Option PRow
  | [] => none
  | r :: rs =>
    match argmaxProb rs with
    | none => some r
    | some m => if r.prob < m.prob then some m else some r

/-- Distinct customer identifiers in ascending order — the group order of
`groupby("EMAIL_CLIENTE")` (pandas sorts group keys by default). -/
def emailsOf (rows : List PRow) : List String :=
  List.insertionSort (· ≤ ·) (uniqueFirst (rows.map PRow.email))

/-- Route-variant exporter (lines 186–188): per customer the row of maximum
`prob_30dias` (`idxmax`), then the selected rows sorted by descending
probability. -/
def topRoutes (rows : List PRow) : List PRow :=
  List.insertionSort probDesc
    ((emailsOf rows).filterMap (fun k => argmaxProb (groupRows rows k)))

/-- Mean `prob_30dias` of one customer's prediction rows, as
`groupby("EMAIL_CLIENTE")["prob_30dias"].mean()` computes it. -/
def groupMean (preds : List (String × ℚ)) (k : String) : ℚ :=
  let ps := (preds.filter (fun p => p.1 = k)).map Prod.snd
  ps.sum / ps.length

/-- Client-variant exporter (lines 190–194):
`df_export.groupby("EMAIL_CLIENTE", as_index=False)["prob_30dias"].mean()`
followed directly by `to_csv` — one row per distinct customer with the mean
probability, in the groupby key order (ascending customer identifier);
no sort by probability is applied. -/
def clientExport (preds : List (String × ℚ)) : List (String × ℚ) :=
  (List.insertionSort (· ≤ ·) (uniqueFirst (preds.map Prod.fst))).map
    (fun k => (k, groupMean preds k))

/-! ## City intensity features (route variant, lines 128–136)

  `freq = df[col].value_counts(dropna=True) / len(df)`
  `df[col + "_freq"] = df[col].map(freq).astype("float32").fillna(0.0)`
  `city_mean_val = df.groupby("ORIGEM")["VALOR_TOTAL_PASSAGEM"].mean()`
  `df["ORIGEM_ticket_mean"] = df["ORIGEM"].map(city_mean_val).astype("float32").fillna(0.0)`

Missing city values are dropped from `value_counts` and from the groupby,
so `map` yields NaN for them and the `fillna(0.0)` turns it into 0.0. -/

/-- One row of the route-variant table for the city-feature computation:
the city columns and the monetary amount may be missing. -/
structure RouteRow where
  email : String
  origem : Option String
  destino : Option String
  valor : Option ℚ
deriving DecidableEq

/-- Column `ORIGEM_freq` of a row: occurrence frequency of its origin city over
the whole table, 0.0 when the origin is missing (`fillna(0.0)`). -/
def origemFreq (df : List RouteRow) (r : RouteRow) : ℚ :=
  match r.origem with
  | none => 0
  | some c => (df.countP (fun x => x.origem = some c) : ℚ) / df.length

/-- Column `DESTINO_freq` of a row, analogously. -/
def destinoFreq (df : List RouteRow) (r : RouteRow) : ℚ :=
  match r.destino with
  | none => 0
  | some c => (df.countP (fun x => x.destino = some c) : ℚ) / df.length

/-- Column `ORIGEM_ticket_mean` of a row: mean monetary amount (over the non-NaN
amounts) of the rows sharing its origin city, 0.0 when the origin is
missing or the group has no non-NaN amount. -/
def origemTicketMean (df : List RouteRow) (r : RouteRow) : ℚ :=
  match r.origem with
  | none => 0
  | some c =>
    let vals := (df.filter (fun x => x.origem = some c)).filterMap RouteRow.valor
    if vals.length = 0 then 0 else vals.sum / vals.length

/-- Column `DESTINO_ticket_mean` of a row, analogously. -/
def destinoTicketMean (df : List RouteRow) (r : RouteRow) : ℚ :=
  match r.destino with
  | none => 0
  | some c =>
    let vals := (df.filter (fun x => x.destino = some c)).filterMap RouteRow.valor
    if vals.length = 0 then 0 else vals.sum / vals.length

/-! ## Claim theorems -/

/-- C1: for every row of a sorted timeline group, `duration` equals the
whole-day difference between the next row's timestamp in the same group and
the current row's timestamp and `event_occurred` is 1; when no next row
exists in the group, `duration` is the censoring sentinel 9999 and
`event_occurred` is 0.  In particular a timeline with purchases on days
0, 10, 25 gets (duration, event) = (10,1), (15,1), (9999,0). -/
theorem c1_duration_event (ts : List Int) (i : Nat) (hi : i < ts.length) :
    (∀ cur next, ts[i]? = some cur → ts[i + 1]? = some next →
      (tempoProx ts)[i]? = some (wholeDays (next - cur)) ∧ (evento ts)[i]? = some 1)
    ∧ (ts[i + 1]? = none →
      (tempoProx ts)[i]? = some CENSOR ∧ (evento ts)[i]? = some 0)
    ∧ tempoProx [0, 10 * minutesPerDay, 25 * minutesPerDay] = [10, 15, CENSOR]
    ∧ evento [0, 10 * minutesPerDay, 25 * minutesPerDay] = [1, 1, 0] := by
  refine ⟨fun cur next hc hn =>
      ⟨tempoProx_getElem?_next ts i cur next hc hn, evento_getElem?_next ts i next hn⟩,
    fun hn =>
      ⟨tempoProx_getElem?_last ts i hi hn, evento_getElem?_last ts i hi hn⟩,
    by decide, by decide⟩

/-- Witness for C1: the day-0/10/25 timeline at rows 0 (next exists) and
2 (censored). -/
theorem c1_duration_event_witness :
    (tempoProx [0, 10 * minutesPerDay, 25 * minutesPerDay])[0]? =
        some (wholeDays (10 * minutesPerDay - 0))
    ∧ (evento [0, 10 * minutesPerDay, 25 * minutesPerDay])[0]? = some 1
    ∧ (tempoProx [0, 10 * minutesPerDay, 25 * minutesPerDay])[2]? = some CENSOR
    ∧ (evento [0, 10 * minutesPerDay, 25 * minutesPerDay])[2]? = some 0 := by
  have h0 := c1_duration_event [0, 10 * minutesPerDay, 25 * minutesPerDay] 0 (by decide)
  have h2 := c1_duration_event [0, 10 * minutesPerDay, 25 * minutesPerDay] 2 (by decide)
  have ha := h0.1 0 (10 * minutesPerDay) (by decide) (by decide)
  have hb := h2.2.1 (by decide)
  exact ⟨ha.1, ha.2, hb.1, hb.2⟩

/-- C2: every nonempty timeline of length L yields exactly L−1 observations
with `event_occurred = 1` and exactly one observation with
`event_occurred = 0`, namely the chronologically last one. -/
theorem c2_event_counts (ts : List Int) (h : ts ≠ []) :
    (evento ts).count 1 = ts.length - 1
    ∧ (evento ts).count 0 = 1
    ∧ (evento ts).getLast? = some 0 := by
  have he := evento_eq_replicate ts h
  rw [he]
  refine ⟨?_, ?_, ?_⟩
  · simp [List.count_append, List.count_replicate]
  · simp [List.count_append, List.count_replicate]
  · simp

/-- Witness for C2: the day-0/10/25 timeline has two events and one
censored last observation. -/
theorem c2_event_counts_witness :
    (evento [0, 14400, 36000]).count 1 = 2
    ∧ (evento [0, 14400, 36000]).count 0 = 1
    ∧ (evento [0, 14400, 36000]).getLast? = some 0 := by
  have h := c2_event_counts [0, 14400, 36000] (by decide)
  simpa using h

/-- Helper for C3: on a chronologically sorted group, every duration is
non-negative. -/
theorem tempoProx_nonneg (ts : List Int) (hs : List.Sorted (· ≤ ·) ts) :
    ∀ d ∈ tempoProx ts, 0 ≤ d := by
  induction ts with
  | nil => simp [tempoProx]
  | cons a rest ih =>
    cases rest with
    | nil =>
      intro d hd
      simp only [tempoProx, List.mem_singleton] at hd
      subst hd
      norm_num [CENSOR]
    | cons b r =>
      have hab : a ≤ b := (List.sorted_cons.mp hs).1 b (by simp)
      have hrest := (List.sorted_cons.mp hs).2
      intro d hd
      simp only [tempoProx, List.mem_cons] at hd
      rcases hd with h1 | h2
      · subst h1
        exact Int.fdiv_nonneg (by omega) (by norm_num [minutesPerDay])
      · exact ih hrest d h2

/-- Helper for C3: a censored observation always carries the sentinel. -/
theorem evento_zero_censor (ts : List Int) :
    ∀ i : Nat, (evento ts)[i]? = some 0 → (tempoProx ts)[i]? = some CENSOR := by
  induction ts with
  | nil => intro i h; simp [evento] at h
  | cons a rest ih =>
    cases rest with
    | nil =>
      intro i h
      cases i with
      | zero => simp [tempoProx]
      | succ j => simp [evento] at h
    | cons b r =>
      intro i h
      cases i with
      | zero => simp [evento] at h
      | succ j =>
        simp only [evento, List.getElem?_cons_succ] at h
        simpa [tempoProx] using ih j h

/-- C3: on a chronologically sorted group, every duration is non-negative,
and `event_occurred = 0` implies the duration equals the censoring sentinel
9999 — regardless of calendar time remaining (the sentinel is a constant). -/
theorem c3_nonneg_censor (ts : List Int) (hs : List.Sorted (· ≤ ·) ts) :
    (∀ d ∈ tempoProx ts, 0 ≤ d)
    ∧ ∀ i : Nat, (evento ts)[i]? = some 0 → (tempoProx ts)[i]? = some CENSOR :=
  ⟨tempoProx_nonneg ts hs, evento_zero_censor ts⟩

/-- Witness for C3: a concrete sorted two-row timeline. -/
theorem c3_nonneg_censor_witness :
    0 ≤ wholeDays (14400 - 0) ∧ (tempoProx [0, 14400])[1]? = some CENSOR := by
  have h := c3_nonneg_censor [0, 14400] (by decide)
  exact ⟨h.1 (wholeDays (14400 - 0)) (by decide), h.2 1 (by decide)⟩

/-- Counterexample for C4: with 100 distinct customers the requested sample
size stays 500 (`max(500, 1*100)`), it is not clamped to the population,
and `Series.sample(n=500)` on 100 elements fails (pandas raises
`ValueError`), modelled by `sampleWithoutReplacement` returning `none`. -/
theorem c4_counterexample :
    sample_n 100 = 500 ∧ sampleWithoutReplacement (sample_n 100) 100 = none := by
  decide

/-- C4 (amended): when the dataset has fewer distinct customers than the
floor 500, the requested sample size remains the floor 500 — it is not
clamped to the available population — and the sampling call fails, because
sampling without replacement cannot draw more elements than the population
holds. -/
theorem c4_amended (n : Nat) (h : n < 500) :
    sample_n n = 500 ∧ sampleWithoutReplacement (sample_n n) n = none := by
  unfold sample_n SAMPLE_FRAC sampleWithoutReplacement
  constructor
  · omega
  · simp only [one_mul]
    rw [if_neg (by omega)]

/-- Witness for C4 (amended): the 100-customer dataset of the spec's
scenario. -/
theorem c4_amended_witness :
    100 < 500 ∧ sample_n 100 = 500
    ∧ sampleWithoutReplacement (sample_n 100) 100 = none :=
  ⟨by decide, (c4_amended 100 (by decide)).1, (c4_amended 100 (by decide)).2⟩

/-- Concrete customer block for C8: two routes, the route sorting first
("A","A") carrying the later timestamp (day 100), the second route ("B","B")
the earlier one (day 50).  The block is sorted exactly as line 99 of the
route script sorts it: by (origem, destino, timestamp) within the customer. -/
def c8Block : List TripRow :=
  [⟨"A", "A", 100 * minutesPerDay⟩, ⟨"B", "B", 50 * minutesPerDay⟩]

/-- Counterexample for C8: on `c8Block` the code's features (grouped by
customer alone, lines 108–116 of the route script) differ from the claimed
per-(customer, origin, destination) grouping — the second row gets
`days_since_last = −50` (difference across a route boundary) where the
per-route grouping would give "missing", and `purchases_so_far = 1` where
the per-route count of prior rows is 0. -/
theorem c8_counterexample :
    diasDesdeUltima (c8Block.map TripRow.ts) ≠ diasDesdeUltimaPerRoute c8Block
    ∧ comprasAteAgora c8Block ≠ comprasPerRoute c8Block := by
  decide

/-- Helper for C8 (amended): entries of `diasAux`. -/
theorem diasAux_getElem? (l : List Int) (prev : Int) (j : Nat) (a b : Int)
    (ha : (prev :: l)[j]? = some a) (hb : l[j]? = some b) :
    (diasAux prev l)[j]? = some (some (wholeDays (b - a))) := by
  induction l generalizing prev j with
  | nil => simp at hb
  | cons c r ih =>
    cases j with
    | zero =>
      simp only [List.getElem?_cons_zero, Option.some.injEq] at ha hb
      subst ha; subst hb
      simp [diasAux]
    | succ j =>
      simp only [List.getElem?_cons_succ] at ha hb
      simpa [diasAux] using ih c j ha hb

/-- C8 (amended): in the route variant the per-row temporal features are
grouped by customer alone (`groupby("EMAIL_CLIENTE")`), over the rows in
(origin, destination, timestamp) order: `days_since_last` is missing on the
customer's first row and otherwise is the whole-day difference from the
customer's previous row in that order, and `purchases_so_far` numbers the
customer's rows 0,1,2,… in that order. -/
theorem c8_amended (tsl : List Int) (block : List TripRow) (i : Nat)
    (h0 : tsl ≠ []) :
    (diasDesdeUltima tsl)[0]? = some none
    ∧ (∀ a b : Int, tsl[i]? = some a → tsl[i + 1]? = some b →
        (diasDesdeUltima tsl)[i + 1]? = some (some (wholeDays (b - a))))
    ∧ (comprasAteAgora block)[i]? = if i < block.length then some i else none := by
  refine ⟨?_, ?_, ?_⟩
  · cases tsl with
    | nil => exact absurd rfl h0
    | cons t0 rest => simp [diasDesdeUltima]
  · intro a b ha hb
    cases tsl with
    | nil => simp at ha
    | cons t0 rest =>
      have hb2 : rest[i]? = some b := by simpa using hb
      simpa [diasDesdeUltima] using diasAux_getElem? rest t0 i a b ha hb2
  · rw [comprasAteAgora]
    by_cases hib : i < block.length
    · rw [if_pos hib, List.getElem?_range hib]
    · rw [if_neg hib, List.getElem?_eq_none (by simpa using Nat.le_of_not_lt hib)]

/-- Witness for C8 (amended): a concrete three-row customer and the block
`c8Block`. -/
theorem c8_amended_witness :
    (diasDesdeUltima [0, 14400, 20000])[0]? = some none
    ∧ (diasDesdeUltima [0, 14400, 20000])[1]? = some (some (wholeDays (14400 - 0)))
    ∧ (comprasAteAgora c8Block)[0]? = some 0 := by
  have h := c8_amended [0, 14400, 20000] c8Block 0 (by simp)
  refine ⟨h.1, h.2.1 0 14400 (by decide) (by decide), ?_⟩
  have h3 := h.2.2
  rwa [if_pos (by decide)] at h3

/-- Helper: `reduceOption` undoes `map some`. -/
theorem reduceOption_map_some (l : List ℚ) : (l.map some).reduceOption = l := by
  induction l with
  | nil => rfl
  | cons a r ih => simpa [List.reduceOption_cons_of_some] using ih

/-- C9: with all monetary amounts present, `historical_mean_value` of the
row at position `i > 0` of a group equals the arithmetic mean of the
amounts of the `i` prior rows of the group (current row excluded), in both
variants; for the first observation of any group it is missing, and a row
whose `valor_medio_historico` is missing fails the `dropna` that builds the
final modeling table. -/
theorem c9_historical_mean (vals : List ℚ) (i : Nat)
    (h0 : vals ≠ []) (hi : 0 < i) (hlen : i < vals.length) :
    (valorMedioHistorico (vals.map some))[0]? = some none
    ∧ (valorMedioHistorico (vals.map some))[i]? =
        some (some ((vals.take i).sum / (i : ℚ)))
    ∧ (valorMedioHistoricoRoute (vals.map some))[0]? = some none
    ∧ (valorMedioHistoricoRoute (vals.map some))[i]? =
        some (some ((vals.take i).sum / (i : ℚ)))
    ∧ ∀ (valor quant : Option ℚ) (dias : Option Int),
        keptInModel valor quant dias none = false := by
  have hlen0 : 0 < vals.length := List.length_pos.mpr h0
  have hlenm : (vals.map some).length = vals.length := List.length_map _ _
  have h0m : (0 : Nat) < (vals.map some).length := by rw [hlenm]; exact hlen0
  have him : i < (vals.map some).length := by rw [hlenm]; exact hlen
  have htake : ((vals.map some).take i).reduceOption = vals.take i := by
    rw [← List.map_take, reduceOption_map_some]
  have htklen : (vals.take i).length = i := by
    rw [List.length_take]
    omega
  refine ⟨?_, ?_, ?_, ?_, ?_⟩
  · rw [valorMedioHistorico, List.getElem?_map, List.getElem?_range h0m]
    simp [vmhEntry]
  · rw [valorMedioHistorico, List.getElem?_map, List.getElem?_range him]
    rw [Option.map_some']
    rw [vmhEntry]
    simp only [htake, htklen]
    rw [if_neg (by omega)]
  · rw [valorMedioHistoricoRoute, List.getElem?_map, List.getElem?_range h0m]
    simp [vmhRouteEntry]
  · rw [valorMedioHistoricoRoute, List.getElem?_map, List.getElem?_range him]
    rw [Option.map_some']
    rw [vmhRouteEntry]
    have hprev : (vals.map some)[i - 1]? = some (some (vals.get ⟨i - 1, by omega⟩)) := by
      rw [List.getElem?_map, List.getElem?_eq_getElem (by omega : i - 1 < vals.length)]
      simp
    rw [if_neg (by omega), hprev, htake]
  · intro valor quant dias
    simp [keptInModel]

/-- Witness for C9: the group with amounts 2, 4, 6 — the third row's
historical mean is (2+4)/2 = 3, the first row's is missing. -/
theorem c9_historical_mean_witness :
    (valorMedioHistorico [some 2, some 4, some 6])[0]? = some none
    ∧ (valorMedioHistorico [some 2, some 4, some 6])[2]? = some (some 3)
    ∧ (valorMedioHistoricoRoute [some 2, some 4, some 6])[2]? = some (some 3)
    ∧ keptInModel (some 5) (some 1) (some 3) none = false := by
  have h := c9_historical_mean [2, 4, 6] 2 (by simp) (by decide) (by decide)
  have hmean : (([2, 4, 6] : List ℚ).take 2).sum / ((2 : Nat) : ℚ) = 3 := by
    norm_num
  have h1 := h.1
  have h2 := h.2.1
  have h4 := h.2.2.2.1
  rw [hmean] at h2 h4
  have hmap : (([2, 4, 6] : List ℚ).map some) = [some 2, some 4, some 6] := by rfl
  rw [hmap] at h1 h2 h4
  exact ⟨h1, h2, h4, h.2.2.2.2 (some 5) (some 1) (some 3)⟩

/-- Helper: `uniqueFirst` has the same members as the original list. -/
theorem mem_uniqueFirst {α : Type} [DecidableEq α] (l : List α) (x : α) :
    x ∈ uniqueFirst l ↔ x ∈ l := by
  induction l with
  | nil => simp [uniqueFirst]
  | cons a r ih =>
    by_cases hx : x = a
    · subst hx
      simp [uniqueFirst]
    · simp [uniqueFirst, List.mem_filter, hx, ih]

/-- Helper: members of `valueCountsIndex` are the distinct values of `s`. -/
theorem mem_valueCountsIndex (s : List String) (x : String) :
    x ∈ valueCountsIndex s ↔ x ∈ s := by
  rw [valueCountsIndex, (List.perm_insertionSort (countDescOn s) (uniqueFirst s)).mem_iff]
  exact mem_uniqueFirst s x

/-- C7: for a designated categorical column and cap N, `cap_rare` leaves at
most N+1 distinct labels (the retained categories plus "OTHER"), maps each
cell to itself exactly when its value is among the first N labels of the
frequency-sorted index and to "OTHER" otherwise, and every retained label
is at least as frequent as every replaced value. -/
theorem c7_cap_rare (s : List String) (n : Nat) :
    (cap_rare s n).toFinset.card ≤ n + 1
    ∧ (∀ (i : Nat) (v : String), s[i]? = some v →
        (cap_rare s n)[i]? =
          some (if v ∈ (valueCountsIndex s).take n then v else "OTHER"))
    ∧ (∀ v ∈ (valueCountsIndex s).take n, ∀ w, w ∈ s →
        w ∉ (valueCountsIndex s).take n → s.count w ≤ s.count v) := by
  refine ⟨?_, ?_, ?_⟩
  · have hsub : (cap_rare s n).toFinset ⊆
        ((valueCountsIndex s).take n ++ ["OTHER"]).toFinset := by
      intro x hx
      rw [List.mem_toFinset] at hx ⊢
      simp only [cap_rare, List.mem_map] at hx
      obtain ⟨v, _, hveq⟩ := hx
      by_cases hmem : v ∈ (valueCountsIndex s).take n
      · rw [if_pos hmem] at hveq
        subst hveq
        exact List.mem_append_left _ hmem
      · rw [if_neg hmem] at hveq
        subst hveq
        exact List.mem_append_right _ (by simp)
    calc (cap_rare s n).toFinset.card
        ≤ ((valueCountsIndex s).take n ++ ["OTHER"]).toFinset.card :=
          Finset.card_le_card hsub
      _ ≤ ((valueCountsIndex s).take n ++ ["OTHER"]).length :=
          List.toFinset_card_le _
      _ = ((valueCountsIndex s).take n).length + 1 := by simp
      _ ≤ n + 1 := by
          have := List.length_take_le n (valueCountsIndex s)
          omega
  · intro i v hv
    rw [cap_rare, List.getElem?_map, hv, Option.map_some']
  · intro v hv w hws hwnot
    have hwidx : w ∈ valueCountsIndex s := (mem_valueCountsIndex s w).mpr hws
    have hsorted : List.Sorted (countDescOn s) (valueCountsIndex s) :=
      List.sorted_insertionSort (countDescOn s) (uniqueFirst s)
    have hsplit := List.take_append_drop n (valueCountsIndex s)
    rw [← hsplit] at hsorted
    have hcross := (List.pairwise_append.mp hsorted).2.2
    have hwdrop : w ∈ (valueCountsIndex s).drop n := by
      rcases (List.mem_append.mp (by rw [hsplit]; exact hwidx)) with h | h
      · exact absurd h hwnot
      · exact h
    exact hcross v hv w hwdrop

/-- Witness for C7: the column ["x","x","y"] with cap 1 keeps "x", replaces
"y" by "OTHER", ends with 2 ≤ 2 distinct labels, and "y" is no more
frequent than the retained "x". -/
theorem c7_cap_rare_witness :
    (cap_rare ["x", "x", "y"] 1).toFinset.card ≤ 2
    ∧ (cap_rare ["x", "x", "y"] 1)[0]? = some "x"
    ∧ (cap_rare ["x", "x", "y"] 1)[2]? = some "OTHER"
    ∧ (["x", "x", "y"] : List String).count "y" ≤ (["x", "x", "y"] : List String).count "x" := by
  have h := c7_cap_rare ["x", "x", "y"] 1
  refine ⟨h.1, ?_, ?_, h.2.2 "x" (by decide) "y" (by decide) (by decide)⟩
  · have h0 := h.2.1 0 "x" (by decide)
    rwa [if_pos (by decide)] at h0
  · have h2 := h.2.1 2 "y" (by decide)
    rwa [if_neg (by decide)] at h2

/-- Helper: `idxmax` only returns nothing on an empty group. -/
theorem argmaxProb_eq_none (g : List PRow) (h : argmaxProb g = none) : g = [] := by
  cases g with
  | nil => rfl
  | cons r rs =>
    exfalso
    cases hrs : argmaxProb rs with
    | none =>
      simp only [argmaxProb, hrs] at h
      exact Option.noConfusion h
    | some m2 =>
      simp only [argmaxProb, hrs] at h
      by_cases hlt : r.prob < m2.prob
      · rw [if_pos hlt] at h
        exact Option.noConfusion h
      · rw [if_neg hlt] at h
        exact Option.noConfusion h

/-- Helper: the row `idxmax` picks belongs to its group. -/
theorem argmaxProb_mem (g : List PRow) (m : PRow) (h : argmaxProb g = some m) :
    m ∈ g := by
  induction g generalizing m with
  | nil => simp [argmaxProb] at h
  | cons r rs ih =>
    cases hrs : argmaxProb rs with
    | none =>
      simp only [argmaxProb, hrs, Option.some.injEq] at h
      subst h
      simp
    | some m2 =>
      simp only [argmaxProb, hrs] at h
      by_cases hlt : r.prob < m2.prob
      · rw [if_pos hlt] at h
        simp only [Option.some.injEq] at h
        subst h
        exact List.mem_cons_of_mem r (ih m2 hrs)
      · rw [if_neg hlt] at h
        simp only [Option.some.injEq] at h
        subst h
        simp

/-- Helper: the row `idxmax` picks attains the group maximum. -/
theorem argmaxProb_le (g : List PRow) (m : PRow) (h : argmaxProb g = some m) :
    ∀ x ∈ g, x.prob ≤ m.prob := by
  induction g generalizing m with
  | nil => simp [argmaxProb] at h
  | cons r rs ih =>
    cases hrs : argmaxProb rs with
    | none =>
      simp only [argmaxProb, hrs, Option.some.injEq] at h
      subst h
      intro x hx
      rcases List.mem_cons.mp hx with h1 | h2
      · subst h1; exact le_refl _
      · rw [argmaxProb_eq_none rs hrs] at h2
        simp at h2
    | some m2 =>
      simp only [argmaxProb, hrs] at h
      by_cases hlt : r.prob < m2.prob
      · rw [if_pos hlt] at h
        simp only [Option.some.injEq] at h
        subst h
        intro x hx
        rcases List.mem_cons.mp hx with h1 | h2
        · subst h1; exact le_of_lt hlt
        · exact ih m2 hrs x h2
      · rw [if_neg hlt] at h
        simp only [Option.some.injEq] at h
        subst h
        intro x hx
        rcases List.mem_cons.mp hx with h1 | h2
        · subst h1; exact le_refl _
        · exact le_trans (ih m2 hrs x h2) (le_of_not_lt hlt)

/-- Helper: a nonempty group always yields a selected row. -/
theorem argmaxProb_isSome (g : List PRow) (h : g ≠ []) :
    ∃ m, argmaxProb g = some m := by
  cases hg : argmaxProb g with
  | none => exact absurd (argmaxProb_eq_none g hg) h
  | some m => exact ⟨m, rfl⟩

/-- Helper: membership in a `groupby` group. -/
theorem mem_groupRows (rows : List PRow) (k : String) (r : PRow) :
    r ∈ groupRows rows k ↔ r ∈ rows ∧ r.email = k := by
  simp [groupRows, List.mem_filter]

/-- Helper: every distinct customer has a nonempty group. -/
theorem groupRows_ne_nil (rows : List PRow) (k : String) (hk : k ∈ emailsOf rows) :
    groupRows rows k ≠ [] := by
  rw [emailsOf, (List.perm_insertionSort _ _).mem_iff, mem_uniqueFirst] at hk
  obtain ⟨r, hr, hre⟩ := List.mem_map.mp hk
  intro hnil
  have : r ∈ groupRows rows k := (mem_groupRows rows k r).mpr ⟨hr, hre⟩
  rw [hnil] at this
  simp at this

/-- Helper: mapping the selected rows back to their customer keys gives the
key list back. -/
theorem filterMap_argmax_emails (rows : List PRow) (ks : List String)
    (h : ∀ k ∈ ks, k ∈ emailsOf rows) :
    ((ks.filterMap (fun k => argmaxProb (groupRows rows k))).map PRow.email) = ks := by
  induction ks with
  | nil => simp
  | cons k ks ih =>
    have hk := h k (by simp)
    obtain ⟨m, hm⟩ := argmaxProb_isSome _ (groupRows_ne_nil rows k hk)
    have hme : m.email = k :=
      ((mem_groupRows rows k m).mp (argmaxProb_mem _ m hm)).2
    rw [List.filterMap_cons, hm, List.map_cons, hme,
      ih (fun k2 hk2 => h k2 (by simp [hk2]))]

/-- Helper: `uniqueFirst` never repeats a value. -/
theorem nodup_uniqueFirst {α : Type} [DecidableEq α] (l : List α) :
    (uniqueFirst l).Nodup := by
  induction l with
  | nil => simp [uniqueFirst]
  | cons a r ih =>
    rw [uniqueFirst]
    refine List.nodup_cons.mpr ⟨?_, List.Nodup.filter _ ih⟩
    intro hmem
    have := List.of_mem_filter hmem
    simp at this

/-- C6: the route-variant exporter outputs exactly one row per distinct
customer identifier — the output's customer column is a permutation of the
duplicate-free list of distinct customers — and each output row is a row of
the prediction table attaining the maximum 30-day probability among that
customer's rows. -/
theorem c6_top_routes (rows : List PRow) :
    ((topRoutes rows).map PRow.email).Perm (emailsOf rows)
    ∧ (emailsOf rows).Nodup
    ∧ ∀ r ∈ topRoutes rows, r ∈ rows ∧
        ∀ s ∈ rows, s.email = r.email → s.prob ≤ r.prob := by
  refine ⟨?_, ?_, ?_⟩
  · have hperm := List.perm_insertionSort probDesc
      ((emailsOf rows).filterMap (fun k => argmaxProb (groupRows rows k)))
    have := hperm.map PRow.email
    rwa [filterMap_argmax_emails rows (emailsOf rows) (fun _ hk => hk)] at this
  · rw [emailsOf]
    exact (List.perm_insertionSort _ _).nodup_iff.mpr
      (nodup_uniqueFirst (rows.map PRow.email))
  · intro r hr
    have hr2 : r ∈ (emailsOf rows).filterMap
        (fun k => argmaxProb (groupRows rows k)) :=
      (List.perm_insertionSort probDesc _).mem_iff.mp hr
    obtain ⟨k, _, hk2⟩ := List.mem_filterMap.mp hr2
    have hrg := argmaxProb_mem _ r hk2
    have hre := (mem_groupRows rows k r).mp hrg
    refine ⟨hre.1, fun s hs hse => ?_⟩
    have hsg : s ∈ groupRows rows k :=
      (mem_groupRows rows k s).mpr ⟨hs, by rw [hse, hre.2]⟩
    exact argmaxProb_le _ r hk2 s hsg

/-- Witness for C6: a customer with two routes at probabilities 0.8 and 0.3;
the exported row is the 0.8 route and the 0.3 route's probability is bounded
by it. -/
theorem c6_top_routes_witness :
    topRoutes [⟨"c", "X", "Y", 0.8⟩, ⟨"c", "Z", "W", 0.3⟩] = [⟨"c", "X", "Y", 0.8⟩]
    ∧ (0.3 : ℚ) ≤ (0.8 : ℚ) := by
  have heval : topRoutes [⟨"c", "X", "Y", 0.8⟩, ⟨"c", "Z", "W", 0.3⟩] =
      [⟨"c", "X", "Y", 0.8⟩] := by
    simp +decide [topRoutes, emailsOf, uniqueFirst, groupRows, argmaxProb,
      List.insertionSort, List.orderedInsert, probDesc, List.filter,
      List.filterMap_cons]
    norm_num
  refine ⟨heval, ?_⟩
  have h := (c6_top_routes [⟨"c", "X", "Y", 0.8⟩, ⟨"c", "Z", "W", 0.3⟩]).2.2
    ⟨"c", "X", "Y", 0.8⟩ (by rw [heval]; simp)
  exact h.2 ⟨"c", "Z", "W", 0.3⟩ (by simp) rfl

/-- Counterexample for C5: the client-variant exporter groups by customer
and writes the table without sorting by probability (lines 190–194 of the
client script); with customer "a" at probability 1 and customer "b" at
probability 9 the exported order is [("a",1), ("b",9)], which is not
descending by probability. -/
theorem c5_counterexample :
    ¬ List.Sorted (fun a b : String × ℚ => b.2 ≤ a.2)
      (clientExport [("a", 1), ("b", 9)]) := by
  have heval : clientExport [("a", 1), ("b", 9)] = [("a", 1), ("b", 9)] := by
    simp +decide [clientExport, uniqueFirst, groupMean, List.insertionSort,
      List.orderedInsert, List.filter]
  rw [heval]
  simp [List.sorted_cons]

/-- C5 (amended): the route-variant export is sorted descending by the
30-day probability; the client-variant export is sorted ascending by the
customer identifier (the groupby key order), not by probability.  Both
exports are total functions of their input, so ties never cause a failure. -/
theorem c5_amended (rows : List PRow) (preds : List (String × ℚ)) :
    List.Sorted probDesc (topRoutes rows)
    ∧ List.Sorted (fun a b : String × ℚ => a.1 ≤ b.1) (clientExport preds) := by
  constructor
  · exact List.sorted_insertionSort probDesc _
  · have hk : List.Sorted (· ≤ ·)
        (List.insertionSort (· ≤ ·) (uniqueFirst (preds.map Prod.fst))) :=
      List.sorted_insertionSort _ _
    exact List.Pairwise.map _ (fun a b h => h) hk

/-- C10: in the route variant, a row whose origin or destination city is
missing gets city-frequency and city mean-ticket features equal to 0.0
(the `fillna(0.0)`) rather than missing, and since the `dropna` that builds
the modeling table only tests the nullable feature columns (amount,
quantity, days-since-last, historical mean), such a row enters model
fitting and prediction whenever those other features are present. -/
theorem c10_missing_city (df : List RouteRow) (r : RouteRow) (hr : r ∈ df) :
    (r.origem = none → origemFreq df r = 0 ∧ origemTicketMean df r = 0)
    ∧ (r.destino = none → destinoFreq df r = 0 ∧ destinoTicketMean df r = 0)
    ∧ ∀ (valor quant : Option ℚ) (dias : Option Int) (vmh : Option ℚ),
        valor.isSome → quant.isSome → dias.isSome → vmh.isSome →
        keptInModel valor quant dias vmh = true := by
  refine ⟨fun h => ?_, fun h => ?_, fun v q d m hv hq hd hm => ?_⟩
  · constructor
    · simp [origemFreq, h]
    · simp [origemTicketMean, h]
  · constructor
    · simp [destinoFreq, h]
    · simp [destinoTicketMean, h]
  · simp [keptInModel, hv, hq, hd, hm]

/-- Witness for C10: a one-row table whose row has no origin city but all
nullable features present. -/
theorem c10_missing_city_witness :
    origemFreq [⟨"c", none, some "X", some 5⟩] ⟨"c", none, some "X", some 5⟩ = 0
    ∧ origemTicketMean [⟨"c", none, some "X", some 5⟩] ⟨"c", none, some "X", some 5⟩ = 0
    ∧ keptInModel (some 5) (some 1) (some 3) (some 4) = true := by
  have h := c10_missing_city [⟨"c", none, some "X", some 5⟩]
    ⟨"c", none, some "X", some 5⟩ (by simp)
  exact ⟨(h.1 rfl).1, (h.1 rfl).2,
    h.2.2 (some 5) (some 1) (some 3) (some 4) rfl rfl rfl rfl⟩

end ClickBus
